import Mathlib

/-!
Shallow embedding of the jobstamps memoization library
(src/jobstamps/jobstamp.py) together with proofs checking its
natural-language specification.

Modelling conventions:

* The filesystem is an association list from path strings to nodes; a node
  is a directory or a regular file carrying a modification time and its
  contents.  A monotone counter on the filesystem supplies modification
  times for newly written entries.  Paths are opaque strings; path joining
  in the source (os.path.join) is modelled by string concatenation with a
  slash, exactly as the source only ever joins a directory with a
  freshly-computed digest filename.
* File contents are modelled by format: raw bytes, a pickled Python value
  (the stamp payload written by pickle.dump), or a JSON hash sidecar
  (written by json.dumps in HashMethod.update_stampfile_hook).  Reading a
  file in the wrong format models the corresponding deserialization
  exception.
* Python values that can appear as arguments are modelled by the inductive
  type PyVal; pyRepr models the builtin repr as an injective textual
  encoding per constructor.  The md5 and sha1 hex digests are modelled as
  injective tagged encodings of their input, mirroring the practical
  collision-freeness of the real digests; like a real 40-character sha1
  hexdigest, the modelled digest is never the empty string.
* Python exceptions are modelled with Except; functions that mutate the
  filesystem return the new filesystem explicitly.  The number of times
  the wrapped job function is invoked is returned explicitly by the
  embedding of run.
-/

/-- Paths are opaque strings, exactly as the source passes them around. -/
abbrev FPath := String

/-- Association-list lookup by string key; models Python dict.get and
os.path lookups over our filesystem representation.  Returns the first
binding for the key. -/
def lookupKey {α : Type} : List (String × α) → String → Option α
  | [], _ => none
  | (k, v) :: rest, key => if key = k then some v else lookupKey rest key

/-- Remove every binding for a key; models dict.pop and the in-place
replacement performed when a file is rewritten. -/
def eraseKey {α : Type} : List (String × α) → String → List (String × α)
  | [], _ => []
  | (k, v) :: rest, key =>
      if key = k then eraseKey rest key else (k, v) :: eraseKey rest key

/-- Strategy choice: the two classes MTimeMethod and HashMethod of the
source. -/
inductive MethodKind where
  | mtimeKind
  | hashKind
deriving DecidableEq, Repr

/-- Model of the Python values that flow through run and out_of_date as
positional or keyword arguments: strings, integers, lists of path strings
(for jobstamps_dependencies and jobstamps_output_files), a method class
(for jobstamps_method) and None. -/
inductive PyVal where
  | str (s : String)
  | int (n : Int)
  | pathList (ps : List String)
  | method (k : MethodKind)
  | pynone
deriving DecidableEq, Repr

/-- Model of the builtin repr used when building stamp_input: a
deterministic, injective-per-constructor textual encoding of a value. -/
def pyRepr : PyVal → String
  | PyVal.str s => "str:" ++ s
  | PyVal.int n => toString n
  | PyVal.pathList ps => "list:" ++ String.intercalate "," ps
  | PyVal.method MethodKind.mtimeKind => "class:MTimeMethod"
  | PyVal.method MethodKind.hashKind => "class:HashMethod"
  | PyVal.pynone => "None"

/-- Contents of a regular file, distinguished by format. -/
inductive FileData where
  | bytes (b : List Nat)
  | pickled (v : PyVal)
  | sidecar (m : List (String × String))
deriving DecidableEq, Repr

/-- A filesystem node: a directory or a regular file with a modification
time and contents. -/
inductive FsNode where
  | dir (mtime : Nat)
  | file (mtime : Nat) (data : FileData)
deriving DecidableEq, Repr

/-- Modification time of a node, as reported by os.path.getmtime. -/
def FsNode.mtime : FsNode → Nat
  | FsNode.dir m => m
  | FsNode.file m _ => m

/-- The filesystem: an association list of nodes plus a monotone clock
used to assign modification times to new writes. -/
structure FS where
  nodes : List (FPath × FsNode)
  clock : Nat
deriving DecidableEq, Repr

/-- Node stored at a path, if any. -/
def FS.find (fs : FS) (p : FPath) : Option FsNode :=
  lookupKey fs.nodes p

/-- Model of os.path.exists. -/
def FS.pathExists (fs : FS) (p : FPath) : Bool :=
  (fs.find p).isSome

/-- Model of os.path.isdir. -/
def FS.pathIsDir (fs : FS) (p : FPath) : Bool :=
  match fs.find p with
  | some (FsNode.dir _) => true
  | _ => false

/-- Model of os.path.getmtime; none models the OSError raised on a
missing path. -/
def FS.getmtime (fs : FS) (p : FPath) : Option Nat :=
  (fs.find p).map FsNode.mtime

/-- Truncate-and-rewrite of a regular file at a path (open with mode wb
followed by a dump): any previous binding is replaced and the new file
gets the current clock as its modification time. -/
def FS.writeFile (fs : FS) (p : FPath) (d : FileData) : FS :=
  { nodes := (p, FsNode.file fs.clock d) :: eraseKey fs.nodes p,
    clock := fs.clock + 1 }

/-- Creation of a directory node (os.makedirs on a path that does not
exist yet). -/
def FS.mkdir (fs : FS) (p : FPath) : FS :=
  { nodes := (p, FsNode.dir fs.clock) :: fs.nodes,
    clock := fs.clock + 1 }

/-- Embedding of _safe_mkdir: os.makedirs, with the EEXIST OSError
swallowed, is a no-op whenever the path already exists (as a directory or
as anything else) and otherwise creates the directory. -/
def _safe_mkdir (fs : FS) (directory : FPath) : FS :=
  if fs.pathExists directory then fs else fs.mkdir directory

/-- Model of the exceptions that can escape the embedded functions,
keyed by the distinct raise sites of the source. -/
inductive JErr where
  | notADirectoryError (directory : String)
  | isADirectoryError (p : String)
  | jsonError (p : String)
  | unpickleError (p : String)
  | jobError (msg : String)
deriving DecidableEq, Repr

/-- Model of the sha1 hex digest of the full contents of a file, as
computed by hashlib.sha1(contents).hexdigest(): an injective tagged
encoding of the contents.  Like the real 40-character hexdigest it is
never the empty string. -/
def sha1hex : FileData → String
  | FileData.bytes b => "sha1:b:" ++ toString b
  | FileData.pickled v => "sha1:p:" ++ pyRepr v
  | FileData.sidecar m =>
      "sha1:s:" ++ String.intercalate ";" (m.map (fun kv => kv.1 ++ "=" ++ kv.2))

/-- Model of the md5 hex digest used for stamp file names, as computed by
hashlib.md5(stamp_input).hexdigest(): an injective tagged encoding. -/
def md5hex (s : String) : String :=
  "md5:" ++ s

/-- Embedding of _sha1_for_file: open the file and hash its contents.
Returns none when the path is missing or a directory (the source would
raise there; both call sites guard with os.path.exists). -/
def _sha1_for_file (fs : FS) (filename : FPath) : Option String :=
  match fs.find filename with
  | some (FsNode.file _ d) => some (sha1hex d)
  | _ => none

/-- Environment consumed by the module: the platform temp directory
returned by tempfile.gettempdir and the JOBSTAMPS_ALWAYS_USE_HASHES
switch.  The JOBSTAMPS_DEBUG switch only prints and is not modelled. -/
structure Env where
  tmpdir : String
  alwaysUseHashes : Bool
deriving DecidableEq, Repr

/-- Embedding of _determine_method: the environment switch forces
HashMethod, otherwise the user choice or MTimeMethod (None is falsy). -/
def _determine_method (env : Env) (user_method : Option MethodKind) : MethodKind :=
  if env.alwaysUseHashes then MethodKind.hashKind
  else user_method.getD MethodKind.mtimeKind

/-- A wrapped job: its __name__ attribute and its behaviour when invoked
with positional and keyword arguments, either a value or a raised
exception message. -/
structure JobFunc where
  name : String
  impl : List PyVal → List (String × PyVal) → Except String PyVal

/-- Constructed state of a staleness method instance: for MTimeMethod the
stored stamp-file mtime, for HashMethod the loaded hash mapping and the
sidecar path. -/
inductive MethodState where
  | mtime (storedMtime : Nat)
  | hash (hashes : List (String × String)) (hashesPath : FPath)
deriving DecidableEq, Repr

/-- Embedding of MTimeMethod.__init__: record the mtime of the stamp file
if it exists, else 0. -/
def MTimeMethod.init (fs : FS) (stamp_file_path : FPath) : MethodState :=
  MethodState.mtime
    (match fs.find stamp_file_path with
     | some n => n.mtime
     | none => 0)

/-- Embedding of HashMethod.__init__: the sidecar path is the stamp path
with suffix .dep.sha1; load the sidecar mapping if the sidecar exists
(raising if it is a directory or not valid JSON), else start empty. -/
def HashMethod.init (fs : FS) (stamp_file_path : FPath) : Except JErr MethodState :=
  let hashesPath := stamp_file_path ++ ".dep.sha1"
  match fs.find hashesPath with
  | none => Except.ok (MethodState.hash [] hashesPath)
  | some (FsNode.file _ (FileData.sidecar m)) =>
      Except.ok (MethodState.hash m hashesPath)
  | some (FsNode.file _ _) => Except.error (JErr.jsonError hashesPath)
  | some (FsNode.dir _) => Except.error (JErr.isADirectoryError hashesPath)

/-- Construction of the chosen method instance (method_class applied to
the stamp file name). -/
def MethodState.init (kind : MethodKind) (fs : FS) (stamp_file_path : FPath) :
    Except JErr MethodState :=
  match kind with
  | MethodKind.mtimeKind => Except.ok (MTimeMethod.init fs stamp_file_path)
  | MethodKind.hashKind => HashMethod.init fs stamp_file_path

/-- Embedding of check_dependency of both method classes.  For
MTimeMethod: mtime of the dependency is not greater than the stored
mtime.  For HashMethod: a falsy (missing or empty) stored hash is stale,
otherwise compare with the freshly computed digest.  The value none
models a raised exception: getmtime on a missing path (OSError, guarded
by the existence check at the call site) or opening a directory while
hashing (IsADirectoryError). -/
def MethodState.check_dependency (m : MethodState) (fs : FS) (dependency_path : FPath) :
    Option Bool :=
  match m with
  | MethodState.mtime stored =>
      match fs.getmtime dependency_path with
      | some t => some (decide (t ≤ stored))
      | none => none
  | MethodState.hash hashes _ =>
      match lookupKey hashes dependency_path with
      | none => some false
      | some stored =>
          if stored = "" then some false
          else
            match _sha1_for_file fs dependency_path with
            | some fresh => some (decide (stored = fresh))
            | none => none

/-- Hash recomputation of HashMethod.update_stampfile_hook: the dict
comprehension over all dependencies that currently exist.  Hashing a
directory raises (open of a directory), modelled as an error. -/
def computeHashes (fs : FS) : List FPath → Except JErr (List (String × String))
  | [] => Except.ok []
  | d :: rest =>
      if fs.pathExists d then
        match _sha1_for_file fs d with
        | some h =>
            match computeHashes fs rest with
            | Except.ok m => Except.ok ((d, h) :: m)
            | Except.error e => Except.error e
        | none => Except.error (JErr.isADirectoryError d)
      else computeHashes fs rest

/-- Embedding of update_stampfile_hook: a no-op for MTimeMethod; for
HashMethod, recompute every existing dependency hash and overwrite the
sidecar with the full mapping.  As in _stamp, opening a path that is a
directory for writing raises (IsADirectoryError) after the hashes were
computed and before anything is written. -/
def MethodState.update_stampfile_hook (m : MethodState) (fs : FS)
    (dependencies : List FPath) : Except JErr Unit × FS :=
  match m with
  | MethodState.mtime _ => (Except.ok (), fs)
  | MethodState.hash _ hashesPath =>
      match computeHashes fs dependencies with
      | Except.ok hs =>
          match fs.find hashesPath with
          | some (FsNode.dir _) => (Except.error (JErr.isADirectoryError hashesPath), fs)
          | _ => (Except.ok (), fs.writeFile hashesPath (FileData.sidecar hs))
      | Except.error e => (Except.error e, fs)

/-- Embedding of _stamp: invoke the job, then truncate-and-rewrite the
stamp file with the pickled return value.  The third component counts how
often the job function was invoked.  A raised job exception propagates
before any write; opening a directory path for writing raises after the
call. -/
def _stamp (fs : FS) (stampfile : FPath) (func : JobFunc) (args : List PyVal)
    (kwargs : List (String × PyVal)) : Except JErr PyVal × FS × Nat :=
  match func.impl args kwargs with
  | Except.error e => (Except.error (JErr.jobError e), fs, 1)
  | Except.ok value =>
      match fs.find stampfile with
      | some (FsNode.dir _) => (Except.error (JErr.isADirectoryError stampfile), fs, 1)
      | _ => (Except.ok value, fs.writeFile stampfile (FileData.pickled value), 1)

/-- Embedding of _stamp_and_update_hook: write the stamp, then run the
update hook of the method; errors propagate with the filesystem reached
so far. -/
def _stamp_and_update_hook (method : MethodState) (dependencies : List FPath)
    (stampfile : FPath) (func : JobFunc) (args : List PyVal)
    (kwargs : List (String × PyVal)) (fs : FS) : Except JErr PyVal × FS × Nat :=
  match _stamp fs stampfile func args kwargs with
  | (Except.error e, fs1, n) => (Except.error e, fs1, n)
  | (Except.ok value, fs1, n) =>
      match method.update_stampfile_hook fs1 dependencies with
      | (Except.ok _, fs2) => (Except.ok value, fs2, n)
      | (Except.error e, fs2) => (Except.error e, fs2, n)

/-- Default storage directory os.path.join(tempfile.gettempdir(),
"jobstamps"). -/
def storageDirectory (env : Env) : FPath :=
  env.tmpdir ++ "/jobstamps"

/-- Keys of a keyword-argument dict, deduplicated and sorted, as produced
by sorted(kwargs.keys()). -/
def sortedKwargKeys (kwargs : List (String × PyVal)) : List String :=
  ((kwargs.map Prod.fst).dedup).insertionSort (fun a b => a ≤ b)

/-- Reprs of the keyword-argument values, ordered by sorted key name: the
list comprehension over sorted(kwargs.keys()) in _out_of_date. -/
def sortedKwargReprs (kwargs : List (String × PyVal)) : List String :=
  (sortedKwargKeys kwargs).filterMap (fun k => (lookupKey kwargs k).map pyRepr)

/-- Embedding of stamp_input: the canonical string joined from the job
name, the reprs of the positional arguments in call order, and the reprs
of the keyword-argument values ordered by sorted key.  Note that in the
source this string is built before the jobstamps configuration kwargs are
popped, so those configuration options participate in it. -/
def stampInput (funcName : String) (args : List PyVal)
    (kwargs : List (String × PyVal)) : String :=
  String.join ([funcName] ++ args.map pyRepr ++ sortedKwargReprs kwargs)

/-- Extraction of kwargs.pop("jobstamps_dependencies", None) or list()
and the analogous pop for output files: a missing key, None or an empty
list (both falsy) give the empty list. -/
def asPathList (v : Option PyVal) : List FPath :=
  match v with
  | some (PyVal.pathList ps) => ps
  | _ => []

/-- The dependency list popped from the keyword arguments. -/
def depsOf (kwargs : List (String × PyVal)) : List FPath :=
  asPathList (lookupKey kwargs "jobstamps_dependencies")

/-- The expected output file list popped from the keyword arguments. -/
def outputFilesOf (kwargs : List (String × PyVal)) : List FPath :=
  asPathList (lookupKey kwargs "jobstamps_output_files")

/-- The cache output directory popped from the keyword arguments, with
falsy values (missing key, None, empty string) replaced by the default
storage directory. -/
def cacheDirOf (env : Env) (kwargs : List (String × PyVal)) : FPath :=
  match lookupKey kwargs "jobstamps_cache_output_directory" with
  | some (PyVal.str s) => if s = "" then storageDirectory env else s
  | _ => storageDirectory env

/-- The method class chosen by _determine_method from the popped
jobstamps_method keyword argument and the environment switch. -/
def methodKindOf (env : Env) (kwargs : List (String × PyVal)) : MethodKind :=
  _determine_method env
    (match lookupKey kwargs "jobstamps_method" with
     | some (PyVal.method k) => some k
     | _ => none)

/-- The stamp file name: the cache directory joined with the md5 hex
digest of stamp_input. -/
def stampFileName (env : Env) (funcName : String) (args : List PyVal)
    (kwargs : List (String × PyVal)) : FPath :=
  cacheDirOf env kwargs ++ "/" ++ md5hex (stampInput funcName args kwargs)

/-- Keyword arguments left after the four jobstamps configuration keys
are popped; these are forwarded to the job. -/
def jobKwargs (kwargs : List (String × PyVal)) : List (String × PyVal) :=
  eraseKey (eraseKey (eraseKey (eraseKey kwargs "jobstamps_dependencies")
    "jobstamps_output_files") "jobstamps_cache_output_directory") "jobstamps_method"

/-- Embedding of the namedtuple _OutOfDateActionDetail. -/
structure OutOfDateActionDetail where
  stamp : FPath
  dependencies : List FPath
  method : MethodState
  kwargs : List (String × PyVal)
deriving DecidableEq, Repr

/-- First expected output file that does not exist: the second early
return loop of _out_of_date. -/
def firstMissingOutput (fs : FS) : List FPath → Option FPath
  | [] => none
  | f :: rest =>
      if fs.pathExists f = false then some f else firstMissingOutput fs rest

/-- First dependency that does not exist or whose check_dependency is
false: the third early return loop of _out_of_date, with the
short-circuit of the Python or.  An exception raised by
check_dependency (hashing a directory) propagates. -/
def firstStaleDependency (fs : FS) (m : MethodState) :
    List FPath → Except JErr (Option FPath)
  | [] => Except.ok none
  | d :: rest =>
      if fs.pathExists d = false then Except.ok (some d)
      else
        match m.check_dependency fs d with
        | none => Except.error (JErr.isADirectoryError d)
        | some false => Except.ok (some d)
        | some true => firstStaleDependency fs m rest

/-- Trigger selection of _out_of_date: missing stamp file first, then the
first missing output file, then the first missing-or-stale dependency,
else none. -/
def selectTrigger (fs : FS) (stampFile : FPath) (outputs : List FPath)
    (deps : List FPath) (m : MethodState) : Except JErr (Option FPath) :=
  if fs.pathExists stampFile = false then Except.ok (some stampFile)
  else
    match firstMissingOutput fs outputs with
    | some f => Except.ok (some f)
    | none => firstStaleDependency fs m deps

/-- Embedding of _out_of_date: build stamp_input from the full keyword
arguments, pop the configuration options, derive the stamp file name,
ensure the cache directory exists (raising when the path exists as a
non-directory), construct the method instance, and select the trigger.
The resulting filesystem is returned alongside the result. -/
def _out_of_date (env : Env) (func : JobFunc) (args : List PyVal)
    (kwargs : List (String × PyVal)) (fs : FS) :
    Except JErr (Option FPath × OutOfDateActionDetail) × FS :=
  let cacheDir := cacheDirOf env kwargs
  let stampFile := stampFileName env func.name args kwargs
  let fs1 := _safe_mkdir fs cacheDir
  if fs1.pathIsDir cacheDir = false then
    (Except.error (JErr.notADirectoryError cacheDir), fs1)
  else
    match MethodState.init (methodKindOf env kwargs) fs1 stampFile with
    | Except.error e => (Except.error e, fs1)
    | Except.ok method =>
        match selectTrigger fs1 stampFile (outputFilesOf kwargs) (depsOf kwargs) method with
        | Except.error e => (Except.error e, fs1)
        | Except.ok trigger =>
            (Except.ok
              (trigger,
               { stamp := stampFile,
                 dependencies := depsOf kwargs,
                 method := method,
                 kwargs := jobKwargs kwargs }),
             fs1)

/-- Embedding of out_of_date: report the trigger of _out_of_date without
running the job. -/
def out_of_date (env : Env) (func : JobFunc) (args : List PyVal)
    (kwargs : List (String × PyVal)) (fs : FS) :
    Except JErr (Option FPath) × FS :=
  match _out_of_date env func args kwargs fs with
  | (Except.error e, fs1) => (Except.error e, fs1)
  | (Except.ok (trigger, _), fs1) => (Except.ok trigger, fs1)

/-- Python truthiness of the trigger value in the line if trigger: of
run.  None is falsy, and so is the empty string. -/
def pathTruthy : Option FPath → Bool
  | none => false
  | some t => decide (t ≠ "")

/-- Model of open(path, "rb") followed by pickle.load: the pickled value
stored at the path, or the exception raised when the path is missing, a
directory, or holds contents in another format. -/
def pickle_load (fs : FS) (p : FPath) : Except JErr PyVal :=
  match fs.find p with
  | some (FsNode.file _ (FileData.pickled v)) => Except.ok v
  | some (FsNode.file _ _) => Except.error (JErr.unpickleError p)
  | some (FsNode.dir _) => Except.error (JErr.isADirectoryError p)
  | none => Except.error (JErr.unpickleError p)

/-- Result of the embedded run: the returned value or propagated
exception, the final filesystem, and the number of invocations of the
wrapped job function. -/
structure RunResult where
  result : Except JErr PyVal
  fs : FS
  calls : Nat
deriving Repr

/-- Embedding of run: compute the trigger and detail; when the trigger is
truthy, stamp and update the hook; otherwise open the stamp file and
unpickle the cached value. -/
def run (env : Env) (func : JobFunc) (args : List PyVal)
    (kwargs : List (String × PyVal)) (fs : FS) : RunResult :=
  match _out_of_date env func args kwargs fs with
  | (Except.error e, fs1) => { result := Except.error e, fs := fs1, calls := 0 }
  | (Except.ok (trigger, detail), fs1) =>
      if pathTruthy trigger then
        match _stamp_and_update_hook detail.method detail.dependencies
            detail.stamp func args detail.kwargs fs1 with
        | (r, fs2, n) => { result := r, fs := fs2, calls := n }
      else
        { result := pickle_load fs1 detail.stamp, fs := fs1, calls := 0 }

instance {ε α : Type} [DecidableEq ε] [DecidableEq α] : DecidableEq (Except ε α) := fun a b =>
  match a, b with
  | Except.ok x, Except.ok y =>
      if h : x = y then isTrue (by rw [h])
      else isFalse (by intro hc; cases hc; exact h rfl)
  | Except.error x, Except.error y =>
      if h : x = y then isTrue (by rw [h])
      else isFalse (by intro hc; cases hc; exact h rfl)
  | Except.ok _, Except.error _ => isFalse (by intro hc; cases hc)
  | Except.error _, Except.ok _ => isFalse (by intro hc; cases hc)

/-- Lookup after erasing a different key is unchanged. -/
theorem lookupKey_eraseKey_ne {α : Type} (l : List (String × α)) (k q : String)
    (h : q ≠ k) : lookupKey (eraseKey l k) q = lookupKey l q := by
  induction l with
  | nil => rfl
  | cons kv rest ih =>
      obtain ⟨a, v⟩ := kv
      simp only [eraseKey, lookupKey]
      by_cases hk : k = a
      · rw [if_pos hk, ih, if_neg (hk ▸ h)]
      · rw [if_neg hk]
        simp only [lookupKey]
        by_cases hq : q = a
        · rw [if_pos hq, if_pos hq]
        · rw [if_neg hq, if_neg hq, ih]

/-- A key is present in an association list exactly when lookup finds it. -/
theorem lookupKey_isSome_iff_mem {α : Type} (l : List (String × α)) (k : String) :
    (lookupKey l k).isSome = true ↔ k ∈ l.map Prod.fst := by
  induction l with
  | nil => simp [lookupKey]
  | cons kv rest ih =>
      obtain ⟨a, v⟩ := kv
      simp only [lookupKey, List.map, List.mem_cons]
      by_cases hq : k = a
      · rw [if_pos hq]; simp [hq]
      · rw [if_neg hq]; simp [hq, ih]

/-- Writing a file stores exactly the written node at the path. -/
theorem find_writeFile_self (fs : FS) (p : FPath) (d : FileData) :
    (fs.writeFile p d).find p = some (FsNode.file fs.clock d) := by
  simp [FS.writeFile, FS.find, lookupKey]

/-- Writing a file leaves every other path unchanged. -/
theorem find_writeFile_ne (fs : FS) (p : FPath) (d : FileData) (q : FPath)
    (h : q ≠ p) : (fs.writeFile p d).find q = fs.find q := by
  simp only [FS.writeFile, FS.find, lookupKey]
  rw [if_neg h, lookupKey_eraseKey_ne _ _ _ h]

/-- Creating a directory stores a directory node at the path. -/
theorem find_mkdir_self (fs : FS) (p : FPath) :
    (fs.mkdir p).find p = some (FsNode.dir fs.clock) := by
  simp [FS.mkdir, FS.find, lookupKey]

/-- Creating a directory leaves every other path unchanged. -/
theorem find_mkdir_ne (fs : FS) (p q : FPath) (h : q ≠ p) :
    (fs.mkdir p).find q = fs.find q := by
  simp only [FS.mkdir, FS.find, lookupKey]
  rw [if_neg h]

/-- The guarded mkdir is a no-op when the path exists. -/
theorem safe_mkdir_of_exists (fs : FS) (d : FPath) (h : fs.pathExists d = true) :
    _safe_mkdir fs d = fs := by
  simp [_safe_mkdir, h]

/-- The guarded mkdir leaves every other path unchanged. -/
theorem find_safe_mkdir_ne (fs : FS) (d q : FPath) (h : q ≠ d) :
    (_safe_mkdir fs d).find q = fs.find q := by
  unfold _safe_mkdir
  split
  · rfl
  · exact find_mkdir_ne fs d q h

/-- The guarded mkdir preserves every existing node. -/
theorem find_safe_mkdir_of_some (fs : FS) (d q : FPath) (n : FsNode)
    (h : fs.find q = some n) : (_safe_mkdir fs d).find q = some n := by
  by_cases hq : q = d
  · subst hq
    rw [safe_mkdir_of_exists fs q (by simp [FS.pathExists, h])]
    exact h
  · rw [find_safe_mkdir_ne fs d q hq]; exact h

/-- The guarded mkdir creates at most a directory node at a missing path. -/
theorem find_safe_mkdir_of_none (fs : FS) (d q : FPath)
    (h : fs.find q = none) :
    (_safe_mkdir fs d).find q = none
      ∨ (_safe_mkdir fs d).find q = some (FsNode.dir fs.clock) := by
  by_cases hq : q = d
  · subst hq
    unfold _safe_mkdir
    have hex : fs.pathExists q = false := by simp [FS.pathExists, h]
    rw [if_neg (by rw [hex]; exact Bool.false_ne_true)]
    right
    exact find_mkdir_self fs q
  · left
    rw [find_safe_mkdir_ne fs d q hq]; exact h

/-- A string is never equal to itself extended by a nonempty middle and a
tail. -/
theorem self_ne_append_append (a b c : String) (hb : 0 < b.length) :
    a ≠ a ++ b ++ c := by
  intro hcontra
  have hlen := congrArg String.length hcontra
  rw [String.length_append, String.length_append] at hlen
  omega

/-- The cache directory differs from the stamp file path. -/
theorem cacheDir_ne_stamp (env : Env) (funcName : String) (args : List PyVal)
    (kwargs : List (String × PyVal)) :
    cacheDirOf env kwargs ≠ stampFileName env funcName args kwargs := by
  unfold stampFileName
  exact self_ne_append_append _ "/" _ (by decide)

/-- The cache directory differs from the sidecar path. -/
theorem cacheDir_ne_sidecar (env : Env) (funcName : String) (args : List PyVal)
    (kwargs : List (String × PyVal)) :
    cacheDirOf env kwargs ≠ stampFileName env funcName args kwargs ++ ".dep.sha1" := by
  unfold stampFileName
  intro hcontra
  have hlen := congrArg String.length hcontra
  simp only [String.length_append] at hlen
  have h1 : ("/" : String).length = 1 := by decide
  omega

/-- Inversion of a successful _out_of_date call: the filesystem is the
input with the cache directory ensured, and every component of the
returned detail is the corresponding derived value. -/
theorem out_of_date_ok_inv {env : Env} {func : JobFunc} {args : List PyVal}
    {kwargs : List (String × PyVal)} {fs fs1 : FS} {trigger : Option FPath}
    {detail : OutOfDateActionDetail}
    (h : _out_of_date env func args kwargs fs = (Except.ok (trigger, detail), fs1)) :
    fs1 = _safe_mkdir fs (cacheDirOf env kwargs)
    ∧ fs1.pathIsDir (cacheDirOf env kwargs) = true
    ∧ detail.stamp = stampFileName env func.name args kwargs
    ∧ detail.dependencies = depsOf kwargs
    ∧ detail.kwargs = jobKwargs kwargs
    ∧ MethodState.init (methodKindOf env kwargs) fs1 detail.stamp = Except.ok detail.method
    ∧ selectTrigger fs1 detail.stamp (outputFilesOf kwargs) (depsOf kwargs) detail.method
        = Except.ok trigger := by
  simp only [_out_of_date] at h
  split at h
  · simp at h
  · rename_i hdir
    split at h
    · simp at h
    · rename_i method hinit
      split at h
      · simp at h
      · rename_i trigger0 hsel
        simp only [Prod.mk.injEq, Except.ok.injEq] at h
        obtain ⟨⟨htrig, hdetail⟩, hfs⟩ := h
        subst hfs
        subst htrig
        subst hdetail
        refine ⟨rfl, ?_, rfl, rfl, rfl, hinit, hsel⟩
        simpa using hdir

/-- The job function is invoked exactly once inside _stamp, whatever the
outcome. -/
theorem stamp_calls (fs : FS) (stampfile : FPath) (func : JobFunc)
    (args : List PyVal) (kwargs : List (String × PyVal)) :
    (_stamp fs stampfile func args kwargs).2.2 = 1 := by
  unfold _stamp
  split
  · rfl
  · split <;> rfl

/-- The job function is invoked exactly once inside _stamp_and_update_hook,
whatever the outcome. -/
theorem stamp_and_update_hook_calls (m : MethodState) (deps : List FPath)
    (stampfile : FPath) (func : JobFunc) (args : List PyVal)
    (kwargs : List (String × PyVal)) (fs : FS) :
    (_stamp_and_update_hook m deps stampfile func args kwargs fs).2.2 = 1 := by
  unfold _stamp_and_update_hook
  have h1 := stamp_calls fs stampfile func args kwargs
  split
  · rename_i e fs1 n h
    rw [h] at h1
    simpa using h1
  · rename_i v fs1 n h
    rw [h] at h1
    split <;> simpa using h1

/-- Reduction of run on a successful _out_of_date call. -/
theorem run_of_ok {env : Env} {func : JobFunc} {args : List PyVal}
    {kwargs : List (String × PyVal)} {fs fs1 : FS} {trigger : Option FPath}
    {detail : OutOfDateActionDetail}
    (h : _out_of_date env func args kwargs fs = (Except.ok (trigger, detail), fs1)) :
    run env func args kwargs fs =
      if pathTruthy trigger = true then
        { result := (_stamp_and_update_hook detail.method detail.dependencies
              detail.stamp func args detail.kwargs fs1).1,
          fs := (_stamp_and_update_hook detail.method detail.dependencies
              detail.stamp func args detail.kwargs fs1).2.1,
          calls := (_stamp_and_update_hook detail.method detail.dependencies
              detail.stamp func args detail.kwargs fs1).2.2 }
      else { result := pickle_load fs1 detail.stamp, fs := fs1, calls := 0 } := by
  unfold run
  rw [h]

/-- Reduction of run on a failed _out_of_date call. -/
theorem run_of_error {env : Env} {func : JobFunc} {args : List PyVal}
    {kwargs : List (String × PyVal)} {fs fs1 : FS} {e : JErr}
    (h : _out_of_date env func args kwargs fs = (Except.error e, fs1)) :
    run env func args kwargs fs = { result := Except.error e, fs := fs1, calls := 0 } := by
  unfold run
  rw [h]

/-- The filesystem returned by _out_of_date is always the input with the
cache directory ensured. -/
theorem out_of_date_raw_fs (env : Env) (func : JobFunc) (args : List PyVal)
    (kwargs : List (String × PyVal)) (fs : FS) :
    (_out_of_date env func args kwargs fs).2 = _safe_mkdir fs (cacheDirOf env kwargs) := by
  simp only [_out_of_date]
  split
  · rfl
  · split
    · rfl
    · split <;> rfl

/-- The filesystem returned by out_of_date is always the input with the
cache directory ensured. -/
theorem out_of_date_fs (env : Env) (func : JobFunc) (args : List PyVal)
    (kwargs : List (String × PyVal)) (fs : FS) :
    (out_of_date env func args kwargs fs).2 = _safe_mkdir fs (cacheDirOf env kwargs) := by
  have hraw := out_of_date_raw_fs env func args kwargs fs
  unfold out_of_date
  rcases hr : _out_of_date env func args kwargs fs with ⟨a, b⟩
  rw [hr] at hraw
  cases a with
  | error e => simpa using hraw
  | ok p =>
      rcases p with ⟨t, d⟩
      simpa using hraw

/-- The result of _out_of_date depends on the wrapped job only through
its name attribute: the job body is never invoked. -/
theorem out_of_date_raw_impl_invariant (env : Env) (n : String)
    (i1 i2 : List PyVal → List (String × PyVal) → Except String PyVal)
    (args : List PyVal) (kwargs : List (String × PyVal)) (fs : FS) :
    _out_of_date env { name := n, impl := i1 } args kwargs fs
      = _out_of_date env { name := n, impl := i2 } args kwargs fs := rfl

/-- The first early-return output loop agrees with a first-match search. -/
theorem firstMissingOutput_eq_find (fs : FS) (l : List FPath) :
    firstMissingOutput fs l = l.find? (fun f => !fs.pathExists f) := by
  induction l with
  | nil => rfl
  | cons f rest ih =>
      cases hf : fs.pathExists f with
      | false => simp [firstMissingOutput, hf, List.find?]
      | true => simp [firstMissingOutput, hf, ih, List.find?]

/-- The first early-return dependency loop, when it does not raise,
agrees with a first-match search for a missing or non-fresh dependency. -/
theorem firstStaleDependency_ok_eq_find (fs : FS) (m : MethodState)
    (l : List FPath) (t : Option FPath)
    (h : firstStaleDependency fs m l = Except.ok t) :
    t = l.find?
        (fun d => !fs.pathExists d || decide (m.check_dependency fs d = some false)) := by
  induction l generalizing t with
  | nil =>
      simp only [firstStaleDependency] at h
      cases h
      rfl
  | cons d rest ih =>
      simp only [firstStaleDependency] at h
      by_cases hd : fs.pathExists d = false
      · rw [if_pos hd] at h
        cases h
        simp [List.find?, hd]
      · rw [if_neg hd] at h
        have hd2 : fs.pathExists d = true := by
          cases hx : fs.pathExists d
          · exact absurd hx hd
          · rfl
        rcases hc : m.check_dependency fs d with _ | b
        · rw [hc] at h
          cases h
        · rw [hc] at h
          cases b with
          | false =>
              cases h
              simp [List.find?, hd2, hc]
          | true =>
              have := ih t h
              simp [List.find?, hd2, hc, this]

/-- Restatement, following the wording of the specification (step 4,
trigger selection, first match wins): the stamp-file path when the stamp
file does not exist; otherwise the first expected output file, in
caller-supplied order, that does not exist; otherwise the first
dependency, in caller-supplied order, that does not exist or whose
freshness check reports false; otherwise none.  Used to check the
refinement claim against the embedded selection. -/
def specTriggerSelection (fs : FS) (stampFile : FPath) (outputs deps : List FPath)
    (m : MethodState) : Option FPath :=
  if fs.pathExists stampFile = false then some stampFile
  else
    match outputs.find? (fun f => !fs.pathExists f) with
    | some f => some f
    | none =>
        deps.find?
          (fun d => !fs.pathExists d || decide (m.check_dependency fs d = some false))

/-- Shared concrete environment for witnesses: temp directory t, hash
override off. -/
def sampleEnv : Env :=
  { tmpdir := "t", alwaysUseHashes := false }

/-- Shared concrete job for witnesses: named f, returning the integer 7. -/
def sampleJob : JobFunc :=
  { name := "f", impl := fun _ _ => Except.ok (PyVal.int 7) }

/-- C2: for every call to run or out_of_date that completes its staleness
evaluation, the trigger is selected by first match, in order: missing
stamp file (the stamp-file path itself), first missing expected output
file in caller-supplied order, first dependency in caller-supplied order
that is missing or whose freshness check reports false, else no trigger
(None).  Stated as a refinement of the specification wording by the
embedded selection of _out_of_date, which both run and out_of_date
delegate to. -/
theorem trigger_selection_refines_spec {env : Env} {func : JobFunc}
    {args : List PyVal} {kwargs : List (String × PyVal)} {fs fs1 : FS}
    {trigger : Option FPath} {detail : OutOfDateActionDetail}
    (h : _out_of_date env func args kwargs fs = (Except.ok (trigger, detail), fs1)) :
    trigger = specTriggerSelection fs1 detail.stamp (outputFilesOf kwargs)
      (depsOf kwargs) detail.method := by
  obtain ⟨hfs, hdir, hstamp, hdeps, hkw, hinit, hsel⟩ := out_of_date_ok_inv h
  unfold selectTrigger at hsel
  unfold specTriggerSelection
  by_cases hex : fs1.pathExists detail.stamp = false
  · rw [if_pos hex] at hsel ⊢
    injection hsel with h2
    exact h2.symm
  · rw [if_neg hex] at hsel ⊢
    rw [← firstMissingOutput_eq_find]
    cases hm : firstMissingOutput fs1 (outputFilesOf kwargs) with
    | some f =>
        rw [hm] at hsel
        injection hsel with h2
        exact h2.symm
    | none =>
        rw [hm] at hsel
        exact firstStaleDependency_ok_eq_find _ _ _ _ hsel

/-- Witness for C2 at a concrete input: empty filesystem, no arguments;
the selected trigger is the stamp-file path itself. -/
theorem trigger_selection_refines_spec_witness :
    some "t/jobstamps/md5:f" =
      specTriggerSelection (FS.mk [("t/jobstamps", FsNode.dir 0)] 1)
        "t/jobstamps/md5:f" [] [] (MethodState.mtime 0) :=
  @trigger_selection_refines_spec sampleEnv sampleJob [] [] (FS.mk [] 0)
    (FS.mk [("t/jobstamps", FsNode.dir 0)] 1) (some "t/jobstamps/md5:f")
    (OutOfDateActionDetail.mk "t/jobstamps/md5:f" [] (MethodState.mtime 0) [])
    (by decide)

/-- C1 (amended): for every call to run whose staleness evaluation
completes, the wrapped job is invoked at most once; it is invoked exactly
once when the computed trigger is truthy (non-None and non-empty), and
zero times when the trigger is falsy (None, or the pathological empty
string), in which case run returns the value deserialized from the stamp
file. -/
theorem run_job_invocation_count {env : Env} {func : JobFunc} {args : List PyVal}
    {kwargs : List (String × PyVal)} {fs fs1 : FS} {trigger : Option FPath}
    {detail : OutOfDateActionDetail}
    (h : _out_of_date env func args kwargs fs = (Except.ok (trigger, detail), fs1)) :
    (run env func args kwargs fs).calls ≤ 1
    ∧ (pathTruthy trigger = true → (run env func args kwargs fs).calls = 1)
    ∧ (pathTruthy trigger = false →
        (run env func args kwargs fs).calls = 0
        ∧ (run env func args kwargs fs).result = pickle_load fs1 detail.stamp) := by
  have hrun := run_of_ok h
  by_cases ht : pathTruthy trigger = true
  · rw [if_pos ht] at hrun
    have hc : (run env func args kwargs fs).calls = 1 := by
      rw [hrun]
      exact stamp_and_update_hook_calls detail.method detail.dependencies
        detail.stamp func args detail.kwargs fs1
    refine ⟨le_of_eq hc, fun _ => hc, fun hf => ?_⟩
    rw [ht] at hf
    exact absurd hf (by decide)
  · have hf : pathTruthy trigger = false := by
      cases hx : pathTruthy trigger
      · rfl
      · exact absurd hx ht
    rw [if_neg ht] at hrun
    rw [hrun]
    exact ⟨Nat.zero_le 1, fun htr => absurd htr ht, fun _ => ⟨rfl, rfl⟩⟩

/-- Witness for C1 at a concrete input: empty filesystem, so the missing
stamp file is a truthy trigger and the job runs exactly once. -/
theorem run_job_invocation_count_witness :
    (run sampleEnv sampleJob [] [] (FS.mk [] 0)).calls ≤ 1
    ∧ (run sampleEnv sampleJob [] [] (FS.mk [] 0)).calls = 1 :=
  let th := @run_job_invocation_count sampleEnv sampleJob [] [] (FS.mk [] 0)
    (FS.mk [("t/jobstamps", FsNode.dir 0)] 1) (some "t/jobstamps/md5:f")
    (OutOfDateActionDetail.mk "t/jobstamps/md5:f" [] (MethodState.mtime 0) [])
    (by decide)
  ⟨th.1, th.2.1 (by decide)⟩

/-- Keyword arguments of the C1 counterexample: an expected output file
whose path is the empty string. -/
def c1Kwargs : List (String × PyVal) :=
  [("jobstamps_output_files", PyVal.pathList [""])]

/-- Filesystem of the C1 counterexample: the cache directory and the
matching stamp file already exist. -/
def c1Fs : FS :=
  FS.mk [("t/jobstamps", FsNode.dir 0),
         ("t/jobstamps/md5:flist:", FsNode.file 0 (FileData.pickled (PyVal.str "v")))] 1

/-- Counterexample to C1 as stated: the trigger computed in step 4 is the
empty string (an expected output file that does not exist), hence
non-None, yet run invokes the job zero times and replays the cached
value, because the source tests the trigger with Python truthiness
(if trigger:) and the empty string is falsy. -/
theorem run_truthy_trigger_counterexample :
    (out_of_date sampleEnv sampleJob [] c1Kwargs c1Fs).1 = Except.ok (some "")
    ∧ (run sampleEnv sampleJob [] c1Kwargs c1Fs).calls = 0
    ∧ (run sampleEnv sampleJob [] c1Kwargs c1Fs).result = Except.ok (PyVal.str "v") :=
  ⟨by decide, by decide, by decide⟩

/-- C4: when a trigger fires (is truthy) and the invoked job raises, the
error propagates to the caller, the job was invoked exactly once, and
neither the stamp file nor the sidecar is touched: both are byte-for-byte
as in the input filesystem, so the next call still sees the old entry. -/
theorem run_job_error_propagates {env : Env} {func : JobFunc} {args : List PyVal}
    {kwargs : List (String × PyVal)} {fs fs1 : FS} {t : FPath}
    {detail : OutOfDateActionDetail} {e : String}
    (h : _out_of_date env func args kwargs fs = (Except.ok (some t, detail), fs1))
    (ht : t ≠ "")
    (himpl : func.impl args detail.kwargs = Except.error e) :
    (run env func args kwargs fs).result = Except.error (JErr.jobError e)
    ∧ (run env func args kwargs fs).calls = 1
    ∧ (run env func args kwargs fs).fs.find detail.stamp = fs.find detail.stamp
    ∧ (run env func args kwargs fs).fs.find (detail.stamp ++ ".dep.sha1")
        = fs.find (detail.stamp ++ ".dep.sha1") := by
  obtain ⟨hfs, hdir, hstamp, hdeps, hkw, hinit, hsel⟩ := out_of_date_ok_inv h
  have hrun := run_of_ok h
  have htr : pathTruthy (some t) = true := by simp [pathTruthy, ht]
  rw [if_pos htr] at hrun
  have hstampres : _stamp fs1 detail.stamp func args detail.kwargs
      = (Except.error (JErr.jobError e), fs1, 1) := by
    unfold _stamp
    rw [himpl]
  have hhook : _stamp_and_update_hook detail.method detail.dependencies
      detail.stamp func args detail.kwargs fs1
      = (Except.error (JErr.jobError e), fs1, 1) := by
    unfold _stamp_and_update_hook
    rw [hstampres]
  rw [hhook] at hrun
  rw [hrun]
  refine ⟨rfl, rfl, ?_, ?_⟩
  · rw [hfs, hstamp]
    exact find_safe_mkdir_ne fs _ _
      (fun hq => cacheDir_ne_stamp env func.name args kwargs hq.symm)
  · rw [hfs, hstamp]
    exact find_safe_mkdir_ne fs _ _
      (fun hq => cacheDir_ne_sidecar env func.name args kwargs hq.symm)

/-- Concrete failing job for the C4 witness. -/
def failJob : JobFunc :=
  { name := "f", impl := fun _ _ => Except.error "boom" }

/-- Witness for C4 at a concrete input: empty filesystem, failing job;
the error propagates, the job ran once, and the stamp and sidecar paths
are untouched. -/
theorem run_job_error_propagates_witness :
    (run sampleEnv failJob [] [] (FS.mk [] 0)).result
        = Except.error (JErr.jobError "boom")
    ∧ (run sampleEnv failJob [] [] (FS.mk [] 0)).calls = 1
    ∧ (run sampleEnv failJob [] [] (FS.mk [] 0)).fs.find "t/jobstamps/md5:f"
        = (FS.mk [] 0).find "t/jobstamps/md5:f"
    ∧ (run sampleEnv failJob [] [] (FS.mk [] 0)).fs.find "t/jobstamps/md5:f.dep.sha1"
        = (FS.mk [] 0).find "t/jobstamps/md5:f.dep.sha1" :=
  @run_job_error_propagates sampleEnv failJob [] [] (FS.mk [] 0)
    (FS.mk [("t/jobstamps", FsNode.dir 0)] 1) "t/jobstamps/md5:f"
    (OutOfDateActionDetail.mk "t/jobstamps/md5:f" [] (MethodState.mtime 0) []) "boom"
    (by decide) (by decide) rfl

/-- A path that is a directory exists. -/
theorem pathExists_of_isDir (fs : FS) (p : FPath) (h : fs.pathIsDir p = true) :
    fs.pathExists p = true := by
  unfold FS.pathIsDir at h
  unfold FS.pathExists
  rcases hf : fs.find p with _ | n
  · rw [hf] at h
    simp at h
  · simp

/-- Errors of computeHashes only arise from hashing a directory. -/
theorem computeHashes_error_shape (fs : FS) (l : List FPath) (e : JErr)
    (h : computeHashes fs l = Except.error e) :
    ∃ d, e = JErr.isADirectoryError d := by
  induction l with
  | nil => simp [computeHashes] at h
  | cons d rest ih =>
      simp only [computeHashes] at h
      by_cases hd : fs.pathExists d = true
      · rw [if_pos hd] at h
        rcases hs : _sha1_for_file fs d with _ | v
        · rw [hs] at h
          injection h with h2
          exact ⟨d, h2.symm⟩
        · rw [hs] at h
          rcases hc : computeHashes fs rest with e2 | m
          · rw [hc] at h
            injection h with h2
            exact ih (h2 ▸ hc)
          · rw [hc] at h
            simp at h
      · rw [if_neg hd] at h
        exact ih h

/-- Errors of update_stampfile_hook only arise from hashing a directory. -/
theorem update_hook_error_shape (m : MethodState) (fs : FS) (deps : List FPath)
    (e : JErr) (fs2 : FS)
    (h : m.update_stampfile_hook fs deps = (Except.error e, fs2)) :
    ∃ d, e = JErr.isADirectoryError d := by
  cases m with
  | mtime s => simp [MethodState.update_stampfile_hook] at h
  | hash hs hp =>
      simp only [MethodState.update_stampfile_hook] at h
      rcases hc : computeHashes fs deps with e2 | m2
      · rw [hc] at h
        simp only [Prod.mk.injEq, Except.error.injEq] at h
        obtain ⟨d2, hd2⟩ := computeHashes_error_shape fs deps e2 hc
        exact ⟨d2, by rw [← h.1, hd2]⟩
      · rw [hc] at h
        dsimp only at h
        split at h
        · simp only [Prod.mk.injEq, Except.error.injEq] at h
          exact ⟨hp, h.1.symm⟩
        · simp only [Prod.mk.injEq] at h
          exact absurd h.1 (by simp)

/-- Errors of method construction are JSON or directory errors. -/
theorem init_error_shape (k : MethodKind) (fs : FS) (p : FPath) (e : JErr)
    (h : MethodState.init k fs p = Except.error e) :
    (∃ q, e = JErr.jsonError q) ∨ (∃ q, e = JErr.isADirectoryError q) := by
  cases k with
  | mtimeKind => simp [MethodState.init, MTimeMethod.init] at h
  | hashKind =>
      simp only [MethodState.init, HashMethod.init] at h
      split at h
      · simp at h
      · simp at h
      · injection h with h2
        exact Or.inl ⟨_, h2.symm⟩
      · injection h with h2
        exact Or.inr ⟨_, h2.symm⟩

/-- Errors of the dependency loop are directory errors. -/
theorem firstStaleDependency_error_shape (fs : FS) (m : MethodState)
    (l : List FPath) (e : JErr)
    (h : firstStaleDependency fs m l = Except.error e) :
    ∃ d, e = JErr.isADirectoryError d := by
  induction l with
  | nil => simp [firstStaleDependency] at h
  | cons d rest ih =>
      simp only [firstStaleDependency] at h
      by_cases hd : fs.pathExists d = false
      · rw [if_pos hd] at h
        simp at h
      · rw [if_neg hd] at h
        rcases hc : m.check_dependency fs d with _ | b
        · rw [hc] at h
          injection h with h2
          exact ⟨d, h2.symm⟩
        · rw [hc] at h
          cases b with
          | false => simp at h
          | true => exact ih h

/-- Errors of trigger selection are directory errors. -/
theorem selectTrigger_error_shape (fs : FS) (stampFile : FPath)
    (outputs deps : List FPath) (m : MethodState) (e : JErr)
    (h : selectTrigger fs stampFile outputs deps m = Except.error e) :
    ∃ d, e = JErr.isADirectoryError d := by
  unfold selectTrigger at h
  split at h
  · simp at h
  · split at h
    · simp at h
    · exact firstStaleDependency_error_shape fs m deps e h

/-- The result of _stamp is never the configuration error. -/
theorem stamp_result_not_notdir (fs : FS) (stampfile : FPath) (func : JobFunc)
    (args : List PyVal) (kwargs : List (String × PyVal)) (x : String) :
    (_stamp fs stampfile func args kwargs).1
      ≠ Except.error (JErr.notADirectoryError x) := by
  unfold _stamp
  split
  · simp
  · split <;> simp

/-- The result of _stamp_and_update_hook is never the configuration
error. -/
theorem hook_result_not_notdir (m : MethodState) (deps : List FPath)
    (stampfile : FPath) (func : JobFunc) (args : List PyVal)
    (kwargs : List (String × PyVal)) (fs : FS) (x : String) :
    (_stamp_and_update_hook m deps stampfile func args kwargs fs).1
      ≠ Except.error (JErr.notADirectoryError x) := by
  unfold _stamp_and_update_hook
  split
  · rename_i e fs1 n h
    intro hc
    simp only at hc
    injection hc with h2
    have := stamp_result_not_notdir fs stampfile func args kwargs x
    rw [h] at this
    simp only at this
    exact this (congrArg Except.error h2)
  · rename_i v fs1 n h
    split
    · simp
    · rename_i e2 fs2 h2
      intro hc
      simp only at hc
      injection hc with h3
      obtain ⟨d2, hd2⟩ := update_hook_error_shape m fs1 deps e2 fs2 h2
      rw [h3] at hd2
      simp at hd2

/-- The result of pickle loading is never the configuration error. -/
theorem pickle_load_not_notdir (fs : FS) (p : FPath) (x : String) :
    pickle_load fs p ≠ Except.error (JErr.notADirectoryError x) := by
  unfold pickle_load
  split <;> simp

/-- When the cache directory is a directory, any error escaping
_out_of_date is not the configuration error. -/
theorem out_of_date_raw_error_shape {env : Env} {func : JobFunc}
    {args : List PyVal} {kwargs : List (String × PyVal)} {fs fs1 : FS} {e : JErr}
    (hdir : fs.pathIsDir (cacheDirOf env kwargs) = true)
    (h : _out_of_date env func args kwargs fs = (Except.error e, fs1)) :
    ∀ x, e ≠ JErr.notADirectoryError x := by
  intro x
  simp only [_out_of_date] at h
  rw [safe_mkdir_of_exists fs (cacheDirOf env kwargs)
    (pathExists_of_isDir fs _ hdir)] at h
  split at h
  · rename_i hguard
    rw [hdir] at hguard
    exact absurd hguard (by simp)
  · split at h
    · rename_i e2 hinit
      simp only [Prod.mk.injEq, Except.error.injEq] at h
      rcases init_error_shape _ _ _ _ (h.1 ▸ hinit) with ⟨q, hq⟩ | ⟨q, hq⟩ <;>
        simp [hq]
    · rename_i method hinit
      split at h
      · rename_i e2 hsel
        simp only [Prod.mk.injEq, Except.error.injEq] at h
        obtain ⟨q, hq⟩ := selectTrigger_error_shape _ _ _ _ _ _ (h.1 ▸ hsel)
        simp [hq]
      · simp at h

/-- C5: when the cache directory path exists and is not a directory, run
fails with the configuration error before invoking the job (zero
invocations, filesystem untouched); when the path already exists as a
directory, the directory-ensuring step is accepted silently and run never
produces the configuration error. -/
theorem run_cachedir_conflict {env : Env} {func : JobFunc} {args : List PyVal}
    {kwargs : List (String × PyVal)} {fs : FS} :
    (∀ mt d, fs.find (cacheDirOf env kwargs) = some (FsNode.file mt d) →
       run env func args kwargs fs =
         { result := Except.error (JErr.notADirectoryError (cacheDirOf env kwargs)),
           fs := fs, calls := 0 })
    ∧ (fs.pathIsDir (cacheDirOf env kwargs) = true →
       ∀ x, (run env func args kwargs fs).result
         ≠ Except.error (JErr.notADirectoryError x)) := by
  constructor
  · intro mt d hfind
    have hex : fs.pathExists (cacheDirOf env kwargs) = true := by
      simp [FS.pathExists, hfind]
    have hnd : fs.pathIsDir (cacheDirOf env kwargs) = false := by
      simp [FS.pathIsDir, hfind]
    have hraw : _out_of_date env func args kwargs fs
        = (Except.error (JErr.notADirectoryError (cacheDirOf env kwargs)), fs) := by
      simp only [_out_of_date]
      rw [safe_mkdir_of_exists fs _ hex, hnd, if_pos rfl]
    exact run_of_error hraw
  · intro hdir2 x
    rcases hr : _out_of_date env func args kwargs fs with ⟨a, fs1⟩
    cases a with
    | error e =>
        rw [run_of_error hr]
        intro hc
        injection hc with h2
        exact out_of_date_raw_error_shape hdir2 hr x h2
    | ok p =>
        rcases p with ⟨t, detail⟩
        rw [run_of_ok hr]
        by_cases ht : pathTruthy t = true
        · rw [if_pos ht]
          exact hook_result_not_notdir detail.method detail.dependencies
            detail.stamp func args detail.kwargs fs1 x
        · rw [if_neg ht]
          exact pickle_load_not_notdir fs1 detail.stamp x

/-- Witness for C5 at a concrete input: the cache directory path cd
exists as a regular file, so run fails with the configuration error
without invoking the job. -/
theorem run_cachedir_conflict_witness :
    run sampleEnv sampleJob []
        [("jobstamps_cache_output_directory", PyVal.str "cd")]
        (FS.mk [("cd", FsNode.file 0 (FileData.bytes []))] 1)
      = { result := Except.error (JErr.notADirectoryError "cd"),
          fs := FS.mk [("cd", FsNode.file 0 (FileData.bytes []))] 1, calls := 0 } :=
  (@run_cachedir_conflict sampleEnv sampleJob []
    [("jobstamps_cache_output_directory", PyVal.str "cd")]
    (FS.mk [("cd", FsNode.file 0 (FileData.bytes []))] 1)).1 0 (FileData.bytes []) rfl

/-- Second concrete job for the C9 witness: same name as sampleJob but a
different body. -/
def sampleJob2 : JobFunc :=
  { name := "f", impl := fun _ _ => Except.error "other" }

/-- C9: out_of_date never invokes the job (its result is invariant under
replacing the job body, keeping the name) and never creates, modifies or
deletes any existing file: every existing node is preserved and the only
node it can add is a directory (the cache directory). -/
theorem out_of_date_pure_query (env : Env) (f1 f2 : JobFunc)
    (hname : f1.name = f2.name) (args : List PyVal)
    (kwargs : List (String × PyVal)) (fs : FS) :
    out_of_date env f1 args kwargs fs = out_of_date env f2 args kwargs fs
    ∧ (∀ p n, fs.find p = some n →
        (out_of_date env f1 args kwargs fs).2.find p = some n)
    ∧ (∀ p, fs.find p = none →
        (out_of_date env f1 args kwargs fs).2.find p = none
        ∨ (out_of_date env f1 args kwargs fs).2.find p = some (FsNode.dir fs.clock)) := by
  refine ⟨?_, ?_, ?_⟩
  · obtain ⟨n1, i1⟩ := f1
    obtain ⟨n2, i2⟩ := f2
    simp only at hname
    subst hname
    unfold out_of_date
    rw [out_of_date_raw_impl_invariant env n1 i1 i2 args kwargs fs]
  · intro p n hp
    rw [out_of_date_fs]
    exact find_safe_mkdir_of_some fs _ p n hp
  · intro p hp
    rw [out_of_date_fs]
    exact find_safe_mkdir_of_none fs _ p hp

/-- Witness for C9 at a concrete input: two jobs with equal names and
different bodies give the same answer, and an existing file is
preserved. -/
theorem out_of_date_pure_query_witness :
    out_of_date sampleEnv sampleJob [] []
        (FS.mk [("s", FsNode.file 3 (FileData.bytes [1]))] 4)
      = out_of_date sampleEnv sampleJob2 [] []
        (FS.mk [("s", FsNode.file 3 (FileData.bytes [1]))] 4)
    ∧ (out_of_date sampleEnv sampleJob [] []
        (FS.mk [("s", FsNode.file 3 (FileData.bytes [1]))] 4)).2.find "s"
      = some (FsNode.file 3 (FileData.bytes [1])) :=
  let th := out_of_date_pure_query sampleEnv sampleJob sampleJob2 rfl [] []
    (FS.mk [("s", FsNode.file 3 (FileData.bytes [1]))] 4)
  ⟨th.1, th.2.1 "s" (FsNode.file 3 (FileData.bytes [1])) rfl⟩

/-- C10: when the cache directory does not exist, out_of_date creates it
(the one filesystem mutation of the query mode; all other paths are
untouched), and like run it fails with the configuration error when the
path exists as a non-directory. -/
theorem out_of_date_creates_cache_directory (env : Env) (func : JobFunc)
    (args : List PyVal) (kwargs : List (String × PyVal)) (fs : FS) :
    (fs.find (cacheDirOf env kwargs) = none →
       (out_of_date env func args kwargs fs).2 = fs.mkdir (cacheDirOf env kwargs)
       ∧ (out_of_date env func args kwargs fs).2.pathIsDir (cacheDirOf env kwargs) = true
       ∧ (∀ p, p ≠ cacheDirOf env kwargs →
            (out_of_date env func args kwargs fs).2.find p = fs.find p))
    ∧ (∀ mt d, fs.find (cacheDirOf env kwargs) = some (FsNode.file mt d) →
         out_of_date env func args kwargs fs
           = (Except.error (JErr.notADirectoryError (cacheDirOf env kwargs)), fs)) := by
  constructor
  · intro hnone
    have hmk : _safe_mkdir fs (cacheDirOf env kwargs)
        = fs.mkdir (cacheDirOf env kwargs) := by
      unfold _safe_mkdir
      rw [if_neg]
      simp [FS.pathExists, hnone]
    refine ⟨?_, ?_, ?_⟩
    · rw [out_of_date_fs, hmk]
    · rw [out_of_date_fs, hmk]
      simp [FS.pathIsDir, find_mkdir_self]
    · intro p hp
      rw [out_of_date_fs, hmk, find_mkdir_ne fs _ p hp]
  · intro mt d hfind
    have hex : fs.pathExists (cacheDirOf env kwargs) = true := by
      simp [FS.pathExists, hfind]
    have hnd : fs.pathIsDir (cacheDirOf env kwargs) = false := by
      simp [FS.pathIsDir, hfind]
    have hraw : _out_of_date env func args kwargs fs
        = (Except.error (JErr.notADirectoryError (cacheDirOf env kwargs)), fs) := by
      simp only [_out_of_date]
      rw [safe_mkdir_of_exists fs _ hex, hnd, if_pos rfl]
    unfold out_of_date
    rw [hraw]

/-- Witness for C10 at a concrete input: on an empty filesystem the query
mode creates the default cache directory. -/
theorem out_of_date_creates_cache_directory_witness :
    (out_of_date sampleEnv sampleJob [] [] (FS.mk [] 0)).2
        = (FS.mk [] 0).mkdir "t/jobstamps"
    ∧ (out_of_date sampleEnv sampleJob [] [] (FS.mk [] 0)).2.pathIsDir "t/jobstamps"
        = true :=
  let th := (out_of_date_creates_cache_directory sampleEnv sampleJob [] []
    (FS.mk [] 0)).1 rfl
  ⟨th.1, th.2.1⟩

/-- Like the real 40-character sha1 hexdigest, the modelled digest is
never the empty string. -/
theorem sha1hex_ne_empty (d : FileData) : sha1hex d ≠ "" := by
  cases d with
  | bytes b =>
      intro h
      have hl := congrArg String.length h
      rw [sha1hex, String.length_append] at hl
      have h7 : ("sha1:b:" : String).length = 7 := rfl
      have h0 : ("" : String).length = 0 := rfl
      omega
  | pickled v =>
      intro h
      have hl := congrArg String.length h
      rw [sha1hex, String.length_append] at hl
      have h7 : ("sha1:p:" : String).length = 7 := rfl
      have h0 : ("" : String).length = 0 := rfl
      omega
  | sidecar m =>
      intro h
      have hl := congrArg String.length h
      rw [sha1hex, String.length_append] at hl
      have h7 : ("sha1:s:" : String).length = 7 := rfl
      have h0 : ("" : String).length = 0 := rfl
      omega

/-- C6 (amended): under the Timestamp strategy, for a dependency that
exists, the freshness check reports fresh exactly when the dependency
mtime is not greater than the recorded stamp mtime; a missing stamp file
records 0, which yields stale for every dependency whose mtime is
positive (a dependency with mtime 0 compares equal and is reported
fresh). -/
theorem mtime_freshness_check (fs : FS) (stampFile dep : FPath) (n : FsNode)
    (hdep : fs.find dep = some n) (s : Nat)
    (hs : MTimeMethod.init fs stampFile = MethodState.mtime s) :
    ((MethodState.mtime s).check_dependency fs dep = some true ↔ n.mtime ≤ s)
    ∧ (fs.find stampFile = none → s = 0)
    ∧ (fs.find stampFile = none → 0 < n.mtime →
        (MethodState.mtime s).check_dependency fs dep = some false) := by
  have hc : (MethodState.mtime s).check_dependency fs dep
      = some (decide (n.mtime ≤ s)) := by
    simp [MethodState.check_dependency, FS.getmtime, hdep]
  have hzero : fs.find stampFile = none → s = 0 := by
    intro hnone
    unfold MTimeMethod.init at hs
    rw [hnone] at hs
    injection hs with h2
    exact h2.symm
  refine ⟨?_, hzero, ?_⟩
  · rw [hc]
    constructor
    · intro hx
      injection hx with h2
      exact of_decide_eq_true h2
    · intro hx
      rw [decide_eq_true hx]
  · intro hnone hpos
    rw [hc, hzero hnone]
    have : decide (n.mtime ≤ 0) = false := by
      rw [decide_eq_false]
      omega
    rw [this]

/-- Witness for C6 at a concrete input: stamp mtime 5, dependency mtime 3,
so the dependency is fresh. -/
theorem mtime_freshness_check_witness :
    (MethodState.mtime 5).check_dependency
        (FS.mk [("dep", FsNode.file 3 (FileData.bytes [])),
                ("stamp", FsNode.file 5 (FileData.pickled PyVal.pynone))] 6) "dep"
      = some true :=
  (mtime_freshness_check
    (FS.mk [("dep", FsNode.file 3 (FileData.bytes [])),
            ("stamp", FsNode.file 5 (FileData.pickled PyVal.pynone))] 6)
    "stamp" "dep" (FsNode.file 3 (FileData.bytes [])) rfl 5 rfl).1.mpr (by decide)

/-- Filesystem of the C6 counterexample: one dependency with modification
time 0 and no stamp file. -/
def c6Fs : FS :=
  FS.mk [("dep", FsNode.file 0 (FileData.bytes []))] 1

/-- Counterexample to C6 as stated: the stamp file does not exist, so the
recorded value is 0, yet the freshness check reports the existing
dependency with modification time 0 as fresh (0 is not greater than 0),
not stale. -/
theorem mtime_zero_dependency_counterexample :
    c6Fs.find "stamp" = none
    ∧ MTimeMethod.init c6Fs "stamp" = MethodState.mtime 0
    ∧ (MTimeMethod.init c6Fs "stamp").check_dependency c6Fs "dep" = some true :=
  ⟨by decide, by decide, by decide⟩

/-- C7: under the Hash strategy, for a dependency that exists as a
regular file, the freshness check reports fresh exactly when the loaded
sidecar mapping stores a hash for that exact path and the stored hash
equals the freshly computed digest of the current contents; a path with
no stored hash is always reported stale. -/
theorem hash_freshness_iff (hashes : List (String × String)) (scPath : FPath)
    (fs : FS) (dep : FPath) (mt : Nat) (d : FileData)
    (hdep : fs.find dep = some (FsNode.file mt d)) :
    (MethodState.hash hashes scPath).check_dependency fs dep = some true
      ↔ ∃ stored, lookupKey hashes dep = some stored ∧ stored = sha1hex d := by
  have hsha : _sha1_for_file fs dep = some (sha1hex d) := by
    simp [_sha1_for_file, hdep]
  simp only [MethodState.check_dependency]
  rcases hl : lookupKey hashes dep with _ | stored
  · dsimp only
    constructor
    · intro hx
      simp at hx
    · rintro ⟨st, hst, _⟩
      cases hst
  · dsimp only
    by_cases hst0 : stored = ""
    · rw [if_pos hst0]
      constructor
      · intro hx
        simp at hx
      · rintro ⟨st, hst, hv⟩
        injection hst with h3
        rw [← h3, hst0] at hv
        exact absurd hv.symm (sha1hex_ne_empty d)
    · rw [if_neg hst0, hsha]
      constructor
      · intro hx
        injection hx with h2
        exact ⟨stored, rfl, of_decide_eq_true h2⟩
      · rintro ⟨st, hst, hv⟩
        injection hst with h3
        dsimp only
        rw [decide_eq_true (by rw [h3]; exact hv)]

/-- Witness for C7 at a concrete input: the stored hash matches the
current contents, so the dependency is fresh. -/
theorem hash_freshness_iff_witness :
    (MethodState.hash [("d", "sha1:b:[1]")] "sc").check_dependency
        (FS.mk [("d", FsNode.file 0 (FileData.bytes [1]))] 1) "d"
      = some true :=
  (hash_freshness_iff [("d", "sha1:b:[1]")] "sc"
    (FS.mk [("d", FsNode.file 0 (FileData.bytes [1]))] 1) "d" 0
    (FileData.bytes [1]) rfl).mpr ⟨"sha1:b:[1]", rfl, by decide⟩

/-- When no dependency is a directory, hash recomputation succeeds. -/
theorem computeHashes_ok_of_files (fs : FS) (deps : List FPath)
    (hreg : ∀ dp ∈ deps, fs.pathIsDir dp = false) :
    ∃ mp, computeHashes fs deps = Except.ok mp := by
  induction deps with
  | nil => exact ⟨[], rfl⟩
  | cons d rest ih =>
      obtain ⟨mp, hmp⟩ := ih (fun dp hdp => hreg dp (List.mem_cons_of_mem _ hdp))
      by_cases hd : fs.pathExists d = true
      · have hfile : ∃ hh, _sha1_for_file fs d = some hh := by
          unfold FS.pathExists at hd
          rcases hf : fs.find d with _ | n
          · rw [hf] at hd
            simp at hd
          · cases n with
            | dir m =>
                have := hreg d (List.mem_cons_self d rest)
                rw [FS.pathIsDir, hf] at this
                simp at this
            | file m dta => exact ⟨sha1hex dta, by simp [_sha1_for_file, hf]⟩
        obtain ⟨hh, hsha⟩ := hfile
        refine ⟨(d, hh) :: mp, ?_⟩
        simp only [computeHashes]
        rw [if_pos hd, hsha, hmp]
      · refine ⟨mp, ?_⟩
        simp only [computeHashes]
        rw [if_neg hd]
        exact hmp

/-- The mapping produced by hash recomputation stores exactly the hash of
every supplied dependency that exists as a regular file. -/
theorem computeHashes_lookup (fs : FS) (deps : List FPath)
    (mp : List (String × String)) (h : computeHashes fs deps = Except.ok mp) :
    ∀ p, lookupKey mp p = if p ∈ deps then _sha1_for_file fs p else none := by
  induction deps generalizing mp with
  | nil =>
      simp only [computeHashes] at h
      injection h with h2
      subst h2
      intro p
      simp [lookupKey]
  | cons d rest ih =>
      simp only [computeHashes] at h
      by_cases hd : fs.pathExists d = true
      · rw [if_pos hd] at h
        rcases hs : _sha1_for_file fs d with _ | v
        · rw [hs] at h
          simp at h
        · rw [hs] at h
          rcases hc : computeHashes fs rest with e2 | m2
          · rw [hc] at h
            simp at h
          · rw [hc] at h
            injection h with h2
            subst h2
            intro p
            simp only [lookupKey]
            by_cases hp : p = d
            · rw [if_pos hp]
              subst hp
              rw [if_pos (List.mem_cons_self p rest), hs]
            · rw [if_neg hp, ih m2 hc p]
              by_cases hpr : p ∈ rest
              · rw [if_pos hpr, if_pos (List.mem_cons_of_mem d hpr)]
              · rw [if_neg hpr, if_neg (by simp [List.mem_cons, hp, hpr])]
      · rw [if_neg hd] at h
        intro p
        rw [ih mp h p]
        by_cases hp : p = d
        · subst hp
          have hnone : _sha1_for_file fs p = none := by
            unfold FS.pathExists at hd
            rcases hf : fs.find p with _ | n
            · simp [_sha1_for_file, hf]
            · rw [hf] at hd
              simp at hd
          rw [hnone]
          simp
        · by_cases hpr : p ∈ rest
          · rw [if_pos hpr, if_pos (List.mem_cons_of_mem d hpr)]
          · rw [if_neg hpr, if_neg (by simp [List.mem_cons, hp, hpr])]

/-- C8: under the Hash strategy, after on_successful_run with dependency
list deps (none of which is a directory, and with the sidecar path not
occupied by a directory, where the open for writing would raise), the
sidecar holds exactly the mapping from each dependency in deps that
currently exists to the digest of its current contents (missing
dependencies are skipped); the sidecar is fully overwritten with this
mapping, independently of the previously loaded hashes, and every other
path is untouched. -/
theorem hash_update_hook_exact_mapping (hashes : List (String × String))
    (scPath : FPath) (deps : List FPath) (fs : FS)
    (hreg : ∀ dp ∈ deps, fs.pathIsDir dp = false)
    (hsc : fs.pathIsDir scPath = false) :
    ∃ mp, (MethodState.hash hashes scPath).update_stampfile_hook fs deps
        = (Except.ok (), fs.writeFile scPath (FileData.sidecar mp))
      ∧ (fs.writeFile scPath (FileData.sidecar mp)).find scPath
          = some (FsNode.file fs.clock (FileData.sidecar mp))
      ∧ (∀ p, lookupKey mp p = if p ∈ deps then _sha1_for_file fs p else none)
      ∧ (∀ p, p ≠ scPath →
          (fs.writeFile scPath (FileData.sidecar mp)).find p = fs.find p) := by
  obtain ⟨mp, hmp⟩ := computeHashes_ok_of_files fs deps hreg
  refine ⟨mp, ?_, find_writeFile_self fs scPath _,
    computeHashes_lookup fs deps mp hmp, ?_⟩
  · simp only [MethodState.update_stampfile_hook]
    rw [hmp]
    dsimp only
    rcases hf : fs.find scPath with _ | n
    · rfl
    · cases n with
      | dir mm =>
          unfold FS.pathIsDir at hsc
          rw [hf] at hsc
          simp at hsc
      | file mm dta => rfl
  · intro p hp
    exact find_writeFile_ne fs scPath _ p hp

/-- Witness for C8 at a concrete input: one existing file dependency and
one missing dependency; the sidecar records exactly the existing one. -/
theorem hash_update_hook_exact_mapping_witness :
    ∃ mp, (MethodState.hash [("old", "stalehash")] "sc").update_stampfile_hook
        (FS.mk [("d", FsNode.file 0 (FileData.bytes [1]))] 1) ["d", "gone"]
        = (Except.ok (), (FS.mk [("d", FsNode.file 0 (FileData.bytes [1]))] 1).writeFile
            "sc" (FileData.sidecar mp))
      ∧ ((FS.mk [("d", FsNode.file 0 (FileData.bytes [1]))] 1).writeFile "sc"
          (FileData.sidecar mp)).find "sc"
          = some (FsNode.file 1 (FileData.sidecar mp))
      ∧ (∀ p, lookupKey mp p =
          if p ∈ (["d", "gone"] : List FPath)
          then _sha1_for_file (FS.mk [("d", FsNode.file 0 (FileData.bytes [1]))] 1) p
          else none)
      ∧ (∀ p, p ≠ "sc" →
          ((FS.mk [("d", FsNode.file 0 (FileData.bytes [1]))] 1).writeFile "sc"
            (FileData.sidecar mp)).find p
            = (FS.mk [("d", FsNode.file 0 (FileData.bytes [1]))] 1).find p) :=
  hash_update_hook_exact_mapping [("old", "stalehash")] "sc" ["d", "gone"]
    (FS.mk [("d", FsNode.file 0 (FileData.bytes [1]))] 1) (by decide) (by decide)

/-- Two keyword-argument dicts with the same lookup function have the
same sorted key list. -/
theorem sortedKwargKeys_eq_of_lookup_eq (kw1 kw2 : List (String × PyVal))
    (h : ∀ k, lookupKey kw1 k = lookupKey kw2 k) :
    sortedKwargKeys kw1 = sortedKwargKeys kw2 := by
  haveI hanti : IsAntisymm String (fun a b => a ≤ b) :=
    ⟨fun a b h1 h2 => le_antisymm h1 h2⟩
  unfold sortedKwargKeys
  apply List.eq_of_perm_of_sorted (r := fun a b : String => a ≤ b)
  · refine ((List.perm_insertionSort _ _).trans ?_).trans
      (List.perm_insertionSort _ _).symm
    rw [List.perm_ext_iff_of_nodup (List.nodup_dedup _) (List.nodup_dedup _)]
    intro a
    rw [List.mem_dedup, List.mem_dedup,
      ← lookupKey_isSome_iff_mem, ← lookupKey_isSome_iff_mem, h a]
  · exact List.sorted_insertionSort _ _
  · exact List.sorted_insertionSort _ _

/-- Two keyword-argument dicts with the same lookup function produce the
same sorted value reprs. -/
theorem sortedKwargReprs_eq_of_lookup_eq (kw1 kw2 : List (String × PyVal))
    (h : ∀ k, lookupKey kw1 k = lookupKey kw2 k) :
    sortedKwargReprs kw1 = sortedKwargReprs kw2 := by
  unfold sortedKwargReprs
  rw [sortedKwargKeys_eq_of_lookup_eq kw1 kw2 h]
  have hmap : ∀ l : List String,
      l.filterMap (fun k => (lookupKey kw1 k).map pyRepr)
        = l.filterMap (fun k => (lookupKey kw2 k).map pyRepr) := by
    intro l
    induction l with
    | nil => rfl
    | cons a rest ih => simp [List.filterMap_cons, h a, ih]
  exact hmap _

/-- C3 (amended): the stamp-file path is the cache directory joined with
the digest of the canonical string built from the job name, the
positional argument reprs in call order, and the keyword-argument value
reprs ordered by sorted key; two calls with the same job identity, the
same positional argument reprs and the same keyword-argument mapping
(regardless of keyword order) produce the same fingerprint.  Because the
canonical string is built before the configuration options are popped,
those options are part of the keyword-argument mapping and do take part
in the fingerprint. -/
theorem fingerprint_canonical_invariance {env : Env} {func : JobFunc}
    {args : List PyVal} {kwargs : List (String × PyVal)} {fs fs1 : FS}
    {trigger : Option FPath} {detail : OutOfDateActionDetail}
    (h : _out_of_date env func args kwargs fs = (Except.ok (trigger, detail), fs1))
    (func2 : JobFunc) (args2 : List PyVal) (kwargs2 : List (String × PyVal))
    (hname : func2.name = func.name)
    (hargs : args2.map pyRepr = args.map pyRepr)
    (hkw : ∀ k, lookupKey kwargs2 k = lookupKey kwargs k) :
    detail.stamp = cacheDirOf env kwargs ++ "/"
        ++ md5hex (stampInput func.name args kwargs)
    ∧ stampInput func.name args kwargs
        = String.join ([func.name] ++ args.map pyRepr ++ sortedKwargReprs kwargs)
    ∧ stampFileName env func2.name args2 kwargs2
        = stampFileName env func.name args kwargs := by
  obtain ⟨hfs, hdir, hstamp, hdeps, hkwd, hinit, hsel⟩ := out_of_date_ok_inv h
  have hinput : stampInput func2.name args2 kwargs2
      = stampInput func.name args kwargs := by
    unfold stampInput
    rw [hname, hargs, sortedKwargReprs_eq_of_lookup_eq kwargs2 kwargs hkw]
  have hcd : cacheDirOf env kwargs2 = cacheDirOf env kwargs := by
    unfold cacheDirOf
    rw [hkw "jobstamps_cache_output_directory"]
  refine ⟨hstamp, rfl, ?_⟩
  unfold stampFileName
  rw [hinput, hcd]

/-- Witness for C3 at a concrete input: no arguments, empty keyword
dict. -/
theorem fingerprint_canonical_invariance_witness :
    ("t/jobstamps/md5:f" : FPath)
        = cacheDirOf sampleEnv [] ++ "/" ++ md5hex (stampInput "f" [] [])
    ∧ stampInput "f" [] []
        = String.join (["f"] ++ List.map pyRepr [] ++ sortedKwargReprs [])
    ∧ stampFileName sampleEnv "f" [] [] = stampFileName sampleEnv "f" [] [] :=
  @fingerprint_canonical_invariance sampleEnv sampleJob [] [] (FS.mk [] 0)
    (FS.mk [("t/jobstamps", FsNode.dir 0)] 1) (some "t/jobstamps/md5:f")
    (OutOfDateActionDetail.mk "t/jobstamps/md5:f" [] (MethodState.mtime 0) [])
    (by decide) sampleJob [] [] rfl rfl (fun _ => rfl)

/-- Counterexample to C3 as stated: two calls with the same job identity
f, the same (empty) positional arguments and the same non-configuration
keyword arguments, differing only in the jobstamps_dependencies
configuration option, produce different canonical strings and hence
different fingerprints: the configuration options are popped only after
stamp_input is built, so they do take part in the digest. -/
theorem fingerprint_config_kwargs_counterexample :
    stampInput "f" [] []
        ≠ stampInput "f" [] [("jobstamps_dependencies", PyVal.pathList ["d"])]
    ∧ stampFileName sampleEnv "f" [] []
        ≠ stampFileName sampleEnv "f" []
            [("jobstamps_dependencies", PyVal.pathList ["d"])] :=
  ⟨by decide, by decide⟩
